import Mathlib

/-!
Verification of the memory- and task-management core of the `os4` kernel
(frame allocator, task control blocks, task manager / scheduler, and the
process-facing syscalls), as a shallow embedding in Lean 4.

Machine integers (`usize`, `u8`) are modelled as `Nat`; truncating casts are
written with explicit `% 2 ^ w`.  Fatal `panic!` / `.unwrap()` paths are
modelled with `Option` (`none` = panic).  Rust `Vec` becomes `List` with
`push` appending at the end and `pop` removing the last element, matching the
source orientation.
-/

namespace Os4

/-! ## Frame allocator (src/os4/src/mm/frame_allocator.rs) -/

/-- `StackFrameAllocator`: `current`/`end` delimit the never-allocated linear
range, `recycled` is the stack of freed frame numbers (`end` is a Lean keyword,
hence `end_`). -/
structure StackFrameAllocator where
  current : Nat
  end_ : Nat
  recycled : List Nat
deriving DecidableEq, Repr

/-- `StackFrameAllocator::alloc`: pop the most recently recycled frame if any;
otherwise take `current` (advancing it), or report exhaustion with `none` when
`current == end`.  `Vec::pop` removes the last element, so popping is
`getLast?`/`dropLast`. -/
def StackFrameAllocator.alloc (a : StackFrameAllocator) :
    Option Nat × StackFrameAllocator :=
  match a.recycled.getLast? with
  | some ppn => (some ppn, { a with recycled := a.recycled.dropLast })
  | none =>
    if a.current = a.end_ then
      (none, a)
    else
      (some a.current, { a with current := a.current + 1 })

/-- `StackFrameAllocator::dealloc`: panics (`none`) when `ppn ≥ current` or
`ppn` is already recycled; otherwise pushes `ppn` on the recycled stack. -/
def StackFrameAllocator.dealloc (a : StackFrameAllocator) (ppn : Nat) :
    Option StackFrameAllocator :=
  if a.current ≤ ppn ∨ ppn ∈ a.recycled then
    none
  else
    some { a with recycled := a.recycled ++ [ppn] }

/-! ## Theorems for the frame allocator claims -/

/-- C5: `dealloc n` panics exactly when `n ≥ current` or `n` is already in the
recycled set; in every other case it appends `n` to the recycled set (and does
not panic). -/
theorem dealloc_panic_iff (a : StackFrameAllocator) (n : Nat) :
    (a.dealloc n = none ↔ a.current ≤ n ∨ n ∈ a.recycled) ∧
    (¬ (a.current ≤ n ∨ n ∈ a.recycled) →
      a.dealloc n = some { a with recycled := a.recycled ++ [n] }) := by
  constructor
  · constructor
    · intro h
      by_contra hc
      simp only [StackFrameAllocator.dealloc, if_neg hc] at h
      exact Option.noConfusion h
    · intro h
      simp only [StackFrameAllocator.dealloc, if_pos h]
  · intro h
    simp only [StackFrameAllocator.dealloc, if_neg h]

/-- Witness for C5 at a concrete allocator state. -/
theorem dealloc_panic_iff_witness :
    StackFrameAllocator.dealloc ⟨3, 5, [1]⟩ 2 = some ⟨3, 5, [1, 2]⟩ :=
  (dealloc_panic_iff ⟨3, 5, [1]⟩ 2).2 (by decide)

/-- C6: `alloc` returns the most recently recycled frame when the recycled set
is non-empty; otherwise, if `current < end`, it returns `current` and advances
it by one; and it returns `none` exactly when `current == end` and the
recycled set is empty. -/
theorem alloc_spec (a : StackFrameAllocator) :
    (∀ rs x, a.recycled = rs ++ [x] →
      a.alloc = (some x, { a with recycled := rs })) ∧
    (a.recycled = [] → a.current < a.end_ →
      a.alloc = (some a.current, { a with current := a.current + 1 })) ∧
    ((a.alloc).1 = none ↔ a.current = a.end_ ∧ a.recycled = []) := by
  refine ⟨?_, ?_, ?_⟩
  · intro rs x hrs
    simp only [StackFrameAllocator.alloc, hrs, List.getLast?_concat,
      List.dropLast_concat]
  · intro hrs hlt
    simp only [StackFrameAllocator.alloc, hrs, List.getLast?_nil,
      if_neg (Nat.ne_of_lt hlt)]
  · rcases List.eq_nil_or_concat a.recycled with hrs | ⟨rs, x, hrs⟩
    · simp only [StackFrameAllocator.alloc, hrs, List.getLast?_nil]
      by_cases hce : a.current = a.end_
      · simp [hce]
      · simp [hce]
    · simp only [StackFrameAllocator.alloc, hrs, List.getLast?_concat]
      simp

/-- Witness for C6 at a concrete allocator state. -/
theorem alloc_spec_witness :
    StackFrameAllocator.alloc ⟨2, 5, [7]⟩ = (some 7, ⟨2, 5, []⟩) :=
  (alloc_spec ⟨2, 5, [7]⟩).1 [] 7 rfl

/-! ## Task model (src/os4/src/task/task.rs) -/

/-- `TaskStatus`: UnInit, Ready, Running, Exited. -/
inductive TaskStatus where
  | UnInit
  | Ready
  | Running
  | Exited
deriving DecidableEq, Repr

/-- `TaskStatsInfo`: first-scheduled timestamp (µs) and per-syscall counters. -/
structure TaskStatsInfo where
  first_run_time : Nat
  system_call_record : List Nat
deriving DecidableEq, Repr

/-- `TaskStatsInfo::get_info`: returns the syscall counters together with the
stored `first_run_time` (the source names the second component `total_time`
at the call site, but it is the raw `first_run_time` field). -/
def TaskStatsInfo.get_info (st : TaskStatsInfo) : List Nat × Nat :=
  (st.system_call_record, st.first_run_time)

/-- `PAGE_SIZE` from `config` (not under `src/`).  Modelled from the spec:
pages are 4096 bytes (the spec's scenario `mmap(0x1000, 4096, 0x3)` uses
4 KiB page granularity). -/
def PAGE_SIZE : Nat := 4096

/-- Modelled from the spec: the excluded `MemorySet` collaborator is consumed
only through page-range membership checks, insertion and removal
(`isFullyMapped`/`isPartiallyUnmapped`, `insertFramedRegion`, `removeRegion`).
We model it as the list of currently mapped virtual page numbers. -/
abbrev MemSet : Type := List Nat

/-- Modelled from the spec: `MemorySet::is_all_map vpn` — the page-membership
check used by `TaskManager::mmap`; true when `vpn` is mapped. -/
def is_all_map (ms : MemSet) (vpn : Nat) : Bool :=
  List.contains ms vpn

/-- Modelled from the spec: `MemorySet::is_not_all_map vpn` — the check used by
`TaskManager::unmap`; true when `vpn` is not mapped. -/
def is_not_all_map (ms : MemSet) (vpn : Nat) : Bool :=
  ! List.contains ms vpn

/-- Modelled from the spec: `MemorySet::remove_map_area vpn` removes the
mapping for page `vpn`, releasing its backing frame. -/
def remove_map_area (ms : MemSet) (vpn : Nat) : MemSet :=
  List.filter (fun v => v != vpn) ms

/-- The page numbers `[a, b)`. -/
def pageRange (a b : Nat) : List Nat :=
  List.range' a (b - a)

/-- `VirtAddr::floor` (from the excluded `mm` address types): the page number
containing the address. -/
def vaFloor (addr : Nat) : Nat :=
  addr / PAGE_SIZE

/-- `VirtAddr::ceil` (from the excluded `mm` address types): the first page
number at or above the address. -/
def vaCeil (addr : Nat) : Nat :=
  (addr + PAGE_SIZE - 1) / PAGE_SIZE

/-- Modelled from the spec: `MemorySet::insert_framed_area` inserts a framed
mapping covering the page-rounded region `[start_va, end_va)` (permission bits
do not affect which pages are mapped). -/
def insert_framed_area (ms : MemSet) (start_va end_va : Nat) : MemSet :=
  ms ++ pageRange (vaFloor start_va) (vaCeil end_va)

/-- `TaskControlBlock` (context-switch register state, trap-context page and
stack size are irrelevant to the claims and omitted). -/
structure TaskControlBlock where
  task_status : TaskStatus
  stats : TaskStatsInfo
  memory_set : MemSet
deriving DecidableEq, Repr

/-- Default TCB used by out-of-range list reads (never hit under the stated
bounds hypotheses). -/
def dTCB : TaskControlBlock :=
  ⟨TaskStatus.UnInit, ⟨0, []⟩, []⟩

/-- `TaskManagerInner`: the fixed task table and the current task index.  The
manager's `num_app` field always equals `tasks.len()` (the `lazy_static`
constructor pushes exactly `num_app` TCBs), so we use `tasks.length` for it. -/
structure TaskManagerInner where
  tasks : List TaskControlBlock
  current_task : Nat
deriving DecidableEq, Repr

/-- Replace the element at index `i` by `f` of it (identity out of range) —
the effect of `inner.tasks[i].field = ...` assignments in the source. -/
def modifyAt {α : Type} : List α → Nat → (α → α) → List α
  | [], _, _ => []
  | t :: ts, 0, f => f t :: ts
  | t :: ts, n + 1, f => t :: modifyAt ts n f

/-! ## MapPermission and the mmap/munmap layer
(src/os4/src/task/mod.rs, src/os4/src/syscall/process.rs) -/

/-- Modelled from the spec: `MapPermission::from_bits` of the excluded `mm`
collaborator — the address-space permission representation has the four
bitflags R = 1<<1, W = 1<<2, X = 1<<3 (the translated read/write/execute
bits, shifted up by one from the raw port bits) and U = 1<<4 (the always-added
user-accessible bit, the literal `16` at the call site); `from_bits` returns
`none` when any bit outside those four is set in its `u8` argument. -/
def MapPermission.from_bits (bits : Nat) : Option Nat :=
  if bits &&& 0xE1 = 0 then some bits else none

/-- `TaskManager::mmap`: reject (−1) if any page of
`[floor start, ceil (start+len))` is already mapped in the current task's
address space; otherwise convert the port bits (`.unwrap()` on `from_bits`
modelled as `Option.none` = panic) and insert the framed region.  The `as u8`
cast is the explicit `% 2 ^ 8`. -/
def TaskManager.mmap (s : TaskManagerInner) (start len port : Nat) :
    Option (Int × TaskManagerInner) :=
  let start_va := vaFloor start
  let end_va := vaCeil (start + len)
  let ms := (s.tasks.getD s.current_task dTCB).memory_set
  if (pageRange start_va end_va).any (fun i => is_all_map ms i) then
    some (-1, s)
  else
    match MapPermission.from_bits (((port <<< 1) ||| 16) % 2 ^ 8) with
    | none => none
    | some _ =>
      let tasks' := modifyAt s.tasks s.current_task fun t =>
        { t with memory_set := insert_framed_area t.memory_set start (start + len) }
      some (0, { s with tasks := tasks' })

/-- `TaskManager::unmap`: reject (−1) if any page of
`[floor start, ceil (start+len))` is not currently mapped; otherwise remove
every page of the region.  The source's first loop only tests and returns, so
it is the `any` check; the second loop is the fold of removals. -/
def TaskManager.unmap (s : TaskManagerInner) (start len : Nat) :
    Int × TaskManagerInner :=
  let start_va := vaFloor start
  let end_va := vaCeil (start + len)
  let ms := (s.tasks.getD s.current_task dTCB).memory_set
  if (pageRange start_va end_va).any (fun i => is_not_all_map ms i) then
    (-1, s)
  else
    let tasks' := modifyAt s.tasks s.current_task fun t =>
      let ms' :=
        (pageRange start_va end_va).foldl (fun m i => remove_map_area m i) t.memory_set
      { t with memory_set := ms' }
    (0, { s with tasks := tasks' })

/-- `!0x07` as a 64-bit `usize`: all bits set except the low three. -/
def NOT_0x07 : Nat := 2 ^ 64 - 8

/-- The `align_len` computation of `sys_mmap`: round `len` up to a page
multiple. -/
def sys_mmap_align_len (len : Nat) : Nat :=
  if len % PAGE_SIZE ≠ 0 then (len / PAGE_SIZE + 1) * PAGE_SIZE else len

/-- `sys_mmap`: reject (−1) a non-page-aligned `start`; round `len` up to a
page multiple; reject (−1) a `port` with bits outside the low three or with
none of the low three set; otherwise delegate to `TaskManager::mmap`. -/
def sys_mmap (s : TaskManagerInner) (start len port : Nat) :
    Option (Int × TaskManagerInner) :=
  if start % PAGE_SIZE ≠ 0 then
    some (-1, s)
  else if port &&& NOT_0x07 ≠ 0 ∨ port &&& 0x7 = 0 then
    some (-1, s)
  else
    TaskManager.mmap s start (sys_mmap_align_len len) port

/-- `sys_munmap`: reject (−1) when `start` or `len` is not page-aligned;
otherwise call `TaskManager::unmap` — whose return value the source DISCARDS
(`unmap(_start, _len); 0`) — and return 0 unconditionally. -/
def sys_munmap (s : TaskManagerInner) (start len : Nat) :
    Int × TaskManagerInner :=
  if start % PAGE_SIZE ≠ 0 ∨ len % PAGE_SIZE ≠ 0 then
    (-1, s)
  else
    let r := TaskManager.unmap s start len
    (0, r.2)

/-! ## Theorems for the mapping claims -/

/-- C4: `TaskManager::mmap` over a region whose page-rounded range contains a
page already mapped in the current task's address space returns −1 and leaves
the whole task-manager state (in particular the address space) unchanged. -/
theorem mmap_overlap_rejected (s : TaskManagerInner) (start len port : Nat)
    (hov : ∃ vpn ∈ pageRange (vaFloor start) (vaCeil (start + len)),
      is_all_map (s.tasks.getD s.current_task dTCB).memory_set vpn = true) :
    TaskManager.mmap s start len port = some (-1, s) := by
  have hany : (pageRange (vaFloor start) (vaCeil (start + len))).any
      (fun i => is_all_map (s.tasks.getD s.current_task dTCB).memory_set i) = true :=
    List.any_eq_true.mpr hov
  simp only [TaskManager.mmap, hany, if_true]

/-- Witness for C4: mapping `[0x1000, 0x2000)` while page 1 is mapped fails
and changes nothing. -/
theorem mmap_overlap_rejected_witness :
    TaskManager.mmap ⟨[⟨TaskStatus.Running, ⟨0, []⟩, [1]⟩], 0⟩ 4096 4096 3 =
      some (-1, ⟨[⟨TaskStatus.Running, ⟨0, []⟩, [1]⟩], 0⟩) :=
  mmap_overlap_rejected ⟨[⟨TaskStatus.Running, ⟨0, []⟩, [1]⟩], 0⟩ 4096 4096 3
    ⟨1, by decide, by decide⟩

/-- C1: over a page-aligned region containing an unmapped page,
`TaskManager::unmap` does return −1 and leaves every mapping (indeed the whole
state) unchanged — but `sys_munmap` discards that −1 and returns 0 to the
caller, contradicting the claim that the failure is reported. -/
theorem sys_munmap_discards_unmap_failure (s : TaskManagerInner)
    (start len : Nat) (ha : start % PAGE_SIZE = 0) (hl : len % PAGE_SIZE = 0)
    (hun : ∃ vpn ∈ pageRange (vaFloor start) (vaCeil (start + len)),
      is_not_all_map (s.tasks.getD s.current_task dTCB).memory_set vpn = true) :
    TaskManager.unmap s start len = (-1, s) ∧
    sys_munmap s start len = (0, s) := by
  have hany : (pageRange (vaFloor start) (vaCeil (start + len))).any
      (fun i => is_not_all_map (s.tasks.getD s.current_task dTCB).memory_set i) = true :=
    List.any_eq_true.mpr hun
  have hun' : TaskManager.unmap s start len = (-1, s) := by
    simp only [TaskManager.unmap, hany, if_true]
  refine ⟨hun', ?_⟩
  simp only [sys_munmap, ha, hl, ne_eq, not_true_eq_false, or_self, if_false,
    hun', ite_false]

/-- Witness for C1's evaluation: unmapping `[0x1000, 0x2000)` from an empty
address space: the inner unmap fails with −1 without effect, the syscall
still answers 0. -/
theorem sys_munmap_discards_unmap_failure_witness :
    TaskManager.unmap ⟨[⟨TaskStatus.Running, ⟨0, []⟩, []⟩], 0⟩ 4096 4096 =
      (-1, ⟨[⟨TaskStatus.Running, ⟨0, []⟩, []⟩], 0⟩) ∧
    sys_munmap ⟨[⟨TaskStatus.Running, ⟨0, []⟩, []⟩], 0⟩ 4096 4096 =
      (0, ⟨[⟨TaskStatus.Running, ⟨0, []⟩, []⟩], 0⟩) :=
  sys_munmap_discards_unmap_failure ⟨[⟨TaskStatus.Running, ⟨0, []⟩, []⟩], 0⟩
    4096 4096 (by decide) (by decide) ⟨1, by decide, by decide⟩

/-- Helper for C8: `align_len` is `len` rounded up to the next page multiple. -/
theorem sys_mmap_align_len_facts (len : Nat) :
    sys_mmap_align_len len % PAGE_SIZE = 0 ∧ len ≤ sys_mmap_align_len len ∧
    sys_mmap_align_len len < len + PAGE_SIZE := by
  unfold sys_mmap_align_len PAGE_SIZE
  by_cases h : len % 4096 = 0
  · rw [if_neg (by omega)]
    omega
  · rw [if_pos h]
    omega

/-- C8: `sys_mmap` returns −1 with the state unchanged when `start` is not
page-aligned, or `port` has a bit outside the low three, or none of the low
three; otherwise it delegates to `TaskManager::mmap` with `len` rounded up to
the next page multiple. -/
theorem sys_mmap_validate (s : TaskManagerInner) (start len port : Nat) :
    ((start % PAGE_SIZE ≠ 0 ∨ port &&& NOT_0x07 ≠ 0 ∨ port &&& 0x7 = 0) →
      sys_mmap s start len port = some (-1, s)) ∧
    (start % PAGE_SIZE = 0 → port &&& NOT_0x07 = 0 → port &&& 0x7 ≠ 0 →
      sys_mmap s start len port =
        TaskManager.mmap s start (sys_mmap_align_len len) port ∧
      sys_mmap_align_len len % PAGE_SIZE = 0 ∧ len ≤ sys_mmap_align_len len ∧
      sys_mmap_align_len len < len + PAGE_SIZE) := by
  constructor
  · intro h
    by_cases ha : start % PAGE_SIZE = 0
    · have hp : port &&& NOT_0x07 ≠ 0 ∨ port &&& 0x7 = 0 := by
        rcases h with h | h | h
        · exact absurd ha h
        · exact Or.inl h
        · exact Or.inr h
      simp only [sys_mmap, ha, ne_eq, not_true_eq_false, if_false, hp, if_true]
    · simp only [sys_mmap, ha, ne_eq, not_false_eq_true, if_true]
  · intro ha h1 h2
    refine ⟨?_, sys_mmap_align_len_facts len⟩
    have hp : ¬ (port &&& NOT_0x07 ≠ 0 ∨ port &&& 0x7 = 0) := by
      push_neg
      exact ⟨h1, h2⟩
    simp only [sys_mmap, ha, ne_eq, not_true_eq_false, if_false, hp]

/-- Witness for C8 at concrete inputs: a misaligned start is rejected. -/
theorem sys_mmap_validate_witness :
    sys_mmap ⟨[⟨TaskStatus.Running, ⟨0, []⟩, []⟩], 0⟩ 4097 4096 3 =
      some (-1, ⟨[⟨TaskStatus.Running, ⟨0, []⟩, []⟩], 0⟩) :=
  (sys_mmap_validate ⟨[⟨TaskStatus.Running, ⟨0, []⟩, []⟩], 0⟩ 4097 4096 3).1
    (by decide)

/-- Helper for C10: a 64-bit value whose bits outside the low three are all
clear is below 8. -/
theorem lt_eight_of_land_not7 {port : Nat} (hsz : port < 2 ^ 64)
    (h : port &&& NOT_0x07 = 0) : port < 8 := by
  by_contra hge
  push_neg at hge
  have h3 : port >>> 3 ≠ 0 := by
    rw [Nat.shiftRight_eq_div_pow]
    intro h0
    have := (Nat.div_eq_zero_iff (by norm_num : 0 < 2 ^ 3)).mp h0
    omega
  obtain ⟨i, hi, -⟩ := Nat.exists_most_significant_bit h3
  have hbit : port.testBit (3 + i) = true := by
    simpa [Nat.testBit_shiftRight] using hi
  have hlt : 3 + i < 64 := by
    have hge2 := Nat.testBit_implies_ge hbit
    by_contra hge64
    push_neg at hge64
    have : (2 : Nat) ^ 64 ≤ 2 ^ (3 + i) := Nat.pow_le_pow_right (by norm_num) hge64
    omega
  have hmask : NOT_0x07.testBit (3 + i) = true := by
    have hrw : NOT_0x07 = (2 ^ 61 - 1) <<< 3 := by decide
    rw [hrw, Nat.testBit_shiftLeft, Nat.testBit_two_pow_sub_one]
    simp only [Bool.and_eq_true, decide_eq_true_eq]
    omega
  have hcontra : (port &&& NOT_0x07).testBit (3 + i) = true := by
    rw [Nat.testBit_and, hbit, hmask]
    rfl
  rw [h, Nat.zero_testBit] at hcontra
  exact Bool.noConfusion hcontra

/-- C10: for every `port` accepted by `sys_mmap`'s validation, the permission
conversion `MapPermission::from_bits((port << 1) | 16)` in
`TaskManager::mmap` yields a valid value, so its `.unwrap()` never panics. -/
theorem mmap_from_bits_unwrap_safe (port : Nat) (hsz : port < 2 ^ 64)
    (h1 : port &&& NOT_0x07 = 0) (h2 : port &&& 0x7 ≠ 0) :
    (MapPermission.from_bits (((port <<< 1) ||| 16) % 2 ^ 8)).isSome = true := by
  have h8 : port < 8 := lt_eight_of_land_not7 hsz h1
  interval_cases port <;> decide

/-- Witness for C10 at `port = 3` (read+write). -/
theorem mmap_from_bits_unwrap_safe_witness :
    (MapPermission.from_bits (((3 <<< 1) ||| 16) % 2 ^ 8)).isSome = true :=
  mmap_from_bits_unwrap_safe 3 (by norm_num) (by decide) (by decide)

/-! ## Scheduler (src/os4/src/task/mod.rs) -/

/-- `TaskManager::find_next_task`: scan the indices
`current+1, …, current+num_app` reduced `mod num_app` and return the first
whose task has status `Ready`. -/
def find_next_task (s : TaskManagerInner) : Option Nat :=
  (((List.range s.tasks.length).map (fun k => s.current_task + 1 + k)).map
      (fun id => id % s.tasks.length)).find?
    (fun id => decide ((s.tasks.getD id dTCB).task_status = TaskStatus.Ready))

/-- `TaskManager::mark_current_suspended`: set the current task's status to
`Ready`. -/
def mark_current_suspended (s : TaskManagerInner) : TaskManagerInner :=
  let tasks' := modifyAt s.tasks s.current_task fun t =>
    { t with task_status := TaskStatus.Ready }
  { s with tasks := tasks' }

/-- `TaskManager::mark_current_exited`: set the current task's status to
`Exited`. -/
def mark_current_exited (s : TaskManagerInner) : TaskManagerInner :=
  let tasks' := modifyAt s.tasks s.current_task fun t =>
    { t with task_status := TaskStatus.Exited }
  { s with tasks := tasks' }

/-- `TaskManager::run_next_task` at time `now` (µs): if a `Ready` task exists,
mark it `Running`, make it current and UNCONDITIONALLY overwrite its
`first_run_time` with `now` (the source has no "only if unset" guard); if no
task is `Ready`, panic with "All applications completed!" (`none`). -/
def run_next_task (now : Nat) (s : TaskManagerInner) :
    Option TaskManagerInner :=
  match find_next_task s with
  | some next =>
    let tasks' := modifyAt s.tasks next fun t =>
      { t with task_status := TaskStatus.Running,
               stats := { t.stats with first_run_time := now } }
    some { tasks := tasks', current_task := next }
  | none => none

/-- `suspend_current_and_run_next` (driving `sys_yield`). -/
def suspend_current_and_run_next (now : Nat) (s : TaskManagerInner) :
    Option TaskManagerInner :=
  run_next_task now (mark_current_suspended s)

/-- `exit_current_and_run_next` (driving `sys_exit`). -/
def exit_current_and_run_next (now : Nat) (s : TaskManagerInner) :
    Option TaskManagerInner :=
  run_next_task now (mark_current_exited s)

/-- `TaskManager::get_current_task_info`: current status, syscall counters and
the value the source binds as `total_time` — which is the raw
`first_run_time` field returned by `get_info`. -/
def get_current_task_info (s : TaskManagerInner) :
    TaskStatus × List Nat × Nat :=
  let t := s.tasks.getD s.current_task dTCB
  (t.task_status, t.stats.get_info.1, t.stats.get_info.2)

/-- `TaskInfo` struct written to the user buffer by `sys_task_info`. -/
structure TaskInfo where
  status : TaskStatus
  syscall_times : List Nat
  time : Nat
deriving DecidableEq, Repr

/-- `sys_task_info`: returns 0 and writes `(status, counters, t / 1000)` where
`t` is the second component of `get_task_info` (address translation of the
output pointer is not modelled; the struct value written is). -/
def sys_task_info (s : TaskManagerInner) : Int × TaskInfo :=
  let r := get_current_task_info s
  (0, ⟨r.1, r.2.1, r.2.2 / 1000⟩)

/-! ## Theorems for the task-statistics claims -/

/-- C2: the `time` field written by `sys_task_info` is the stored
`first_run_time` timestamp divided by 1000 — an absolute time, not the
elapsed time since first scheduling.  Concretely, for a task first scheduled
at 5,000,000 µs and queried at 7,000,000 µs the code writes 5000 ms where the
claim requires (7,000,000 − 5,000,000) / 1000 = 2000 ms; the current clock is
not even read by this syscall. -/
theorem sys_task_info_time_not_elapsed :
    (∀ s : TaskManagerInner, (sys_task_info s).2.time =
      (s.tasks.getD s.current_task dTCB).stats.first_run_time / 1000) ∧
    (sys_task_info ⟨[⟨TaskStatus.Running, ⟨5000000, [0]⟩, []⟩], 0⟩).2.time =
      5000 ∧
    (5000 : Nat) ≠ (7000000 - 5000000) / 1000 :=
  ⟨fun _ => rfl, by decide, by decide⟩

/-- C3: switching to a task that has already been scheduled before (its
`first_run_time` is 100, i.e. set) overwrites that timestamp with the current
time 200: the source records it unconditionally, not only when unset. -/
theorem run_next_task_overwrites_first_run_time :
    run_next_task 200
        ⟨[⟨TaskStatus.Running, ⟨50, []⟩, []⟩,
          ⟨TaskStatus.Ready, ⟨100, []⟩, []⟩], 0⟩ =
      some ⟨[⟨TaskStatus.Running, ⟨50, []⟩, []⟩,
             ⟨TaskStatus.Running, ⟨200, []⟩, []⟩], 1⟩ ∧
    (100 : Nat) ≠ 200 := by
  decide

/-! ## Helper lemmas about `modifyAt` and `find_next_task` -/

theorem modifyAt_length {α : Type} (l : List α) (i : Nat) (f : α → α) :
    (modifyAt l i f).length = l.length := by
  induction l generalizing i with
  | nil => rfl
  | cons t ts ih =>
    cases i with
    | zero => rfl
    | succ n => simp only [modifyAt, List.length_cons, ih]

theorem getD_modifyAt_ne {α : Type} (l : List α) (i j : Nat) (f : α → α)
    (d : α) (h : j ≠ i) : (modifyAt l i f).getD j d = l.getD j d := by
  induction l generalizing i j with
  | nil => rfl
  | cons t ts ih =>
    cases i with
    | zero =>
      cases j with
      | zero => exact absurd rfl h
      | succ m => simp only [modifyAt, List.getD_cons_succ]
    | succ n =>
      cases j with
      | zero => simp only [modifyAt, List.getD_cons_zero]
      | succ m =>
        simp only [modifyAt, List.getD_cons_succ]
        exact ih n m (fun e => h (by rw [e]))

theorem getD_modifyAt_eq {α : Type} (l : List α) (i : Nat) (f : α → α)
    (d : α) (h : i < l.length) :
    (modifyAt l i f).getD i d = f (l.getD i d) := by
  induction l generalizing i with
  | nil => exact absurd h (by simp)
  | cons t ts ih =>
    cases i with
    | zero => rfl
    | succ n =>
      simp only [modifyAt, List.getD_cons_succ]
      exact ih n (by simpa using h)

/-- Arithmetic core of round-robin coverage: every residue below `N` is hit by
`(c + k) % N` for some `k < N`. -/
theorem exists_k_mod (c N j : Nat) (hN : 0 < N) (hj : j < N) :
    ∃ k, k < N ∧ (c + k) % N = j := by
  refine ⟨(N + j - c % N) % N, Nat.mod_lt _ hN, ?_⟩
  have hcm : c % N < N := Nat.mod_lt _ hN
  calc (c + (N + j - c % N) % N) % N
      = (c % N + (N + j - c % N) % N) % N := (Nat.mod_add_mod c N _).symm
    _ = (c % N + (N + j - c % N)) % N := Nat.add_mod_mod _ _ _
    _ = (N + j) % N := by rw [show c % N + (N + j - c % N) = N + j by omega]
    _ = j % N := Nat.add_mod_left N j
    _ = j := Nat.mod_eq_of_lt hj

/-- If `find_next_task` returns an index, that index is in range and its task
is `Ready`. -/
theorem find_next_task_some (s : TaskManagerInner) (j : Nat)
    (h : find_next_task s = some j) :
    j < s.tasks.length ∧
    (s.tasks.getD j dTCB).task_status = TaskStatus.Ready := by
  unfold find_next_task at h
  have hmem := List.mem_of_find?_eq_some h
  have hp := List.find?_some h
  simp only [List.mem_map, List.mem_range] at hmem
  obtain ⟨id, ⟨k, hk, rfl⟩, rfl⟩ := hmem
  refine ⟨Nat.mod_lt _ (Nat.lt_of_le_of_lt (Nat.zero_le k) hk), ?_⟩
  exact of_decide_eq_true hp

/-- `List.find?` returns the first hit: the result sits at some position `k`
and the predicate fails at every earlier position. -/
theorem find?_some_first {α : Type} (p : α → Bool) :
    ∀ (l : List α) (b : α), l.find? p = some b →
      ∃ k, k < l.length ∧ l.getD k b = b ∧
        ∀ k', k' < k → p (l.getD k' b) = false := by
  intro l
  induction l with
  | nil => intro b h; exact absurd h (by simp)
  | cons a l ih =>
    intro b h
    by_cases hpa : p a = true
    · rw [List.find?_cons_of_pos _ hpa] at h
      cases h
      exact ⟨0, Nat.succ_pos _, List.getD_cons_zero,
        fun k' hk' => absurd hk' (Nat.not_lt_zero k')⟩
    · have hpa' : p a = false := Bool.eq_false_iff.mpr hpa
      rw [List.find?_cons_of_neg _ hpa] at h
      obtain ⟨k, hk, hget, hbefore⟩ := ih b h
      refine ⟨k + 1, by simpa using hk, by simpa using hget, ?_⟩
      intro k' hk'
      cases k' with
      | zero => simpa using hpa'
      | succ k'' =>
        rw [List.getD_cons_succ]
        exact hbefore k'' (by omega)

/-- Position `k` of the scan list of `find_next_task` holds `(c + 1 + k) % N`. -/
theorem scan_getD (c N k j : Nat) (hk : k < N) :
    (((List.range N).map (fun i => c + 1 + i)).map (fun id => id % N)).getD k j =
      (c + 1 + k) % N := by
  rw [List.getD_eq_getElem?_getD, List.getElem?_map, List.getElem?_map,
    List.getElem?_range hk]
  rfl

/-- A returned index is the FIRST `Ready` index in the cyclic scan order from
`current+1`: it sits at scan position `k` and every strictly earlier scan
position holds a non-`Ready` task. -/
theorem find_next_task_first_match (s : TaskManagerInner) (j : Nat)
    (h : find_next_task s = some j) :
    ∃ k, k < s.tasks.length ∧
      j = (s.current_task + 1 + k) % s.tasks.length ∧
      ∀ k', k' < k →
        (s.tasks.getD ((s.current_task + 1 + k') % s.tasks.length)
          dTCB).task_status ≠ TaskStatus.Ready := by
  unfold find_next_task at h
  obtain ⟨k, hk, hget, hbefore⟩ := find?_some_first _ _ j h
  rw [List.length_map, List.length_map, List.length_range] at hk
  rw [scan_getD _ _ _ _ hk] at hget
  refine ⟨k, hk, hget.symm, ?_⟩
  intro k' hk'
  have hb := hbefore k' hk'
  rw [scan_getD _ _ _ _ (by omega)] at hb
  exact of_decide_eq_false hb

/-- A task that is not `Ready` is never returned by `find_next_task`. -/
theorem find_next_task_ne_of_not_ready (s : TaskManagerInner) (i : Nat)
    (h : (s.tasks.getD i dTCB).task_status ≠ TaskStatus.Ready) :
    find_next_task s ≠ some i := by
  intro hf
  exact h (find_next_task_some s i hf).2

/-- `find_next_task` returns `none` exactly when no task in the table is
`Ready` (the scan covers every index). -/
theorem find_next_task_none_iff (s : TaskManagerInner)
    (hN : 0 < s.tasks.length) :
    find_next_task s = none ↔ ∀ j, j < s.tasks.length →
      (s.tasks.getD j dTCB).task_status ≠ TaskStatus.Ready := by
  unfold find_next_task
  rw [List.find?_eq_none]
  constructor
  · intro h j hj hready
    obtain ⟨k, hk, hkj⟩ := exists_k_mod (s.current_task + 1) s.tasks.length j hN hj
    have hjmem : j ∈ ((List.range s.tasks.length).map
        (fun k => s.current_task + 1 + k)).map (fun id => id % s.tasks.length) := by
      simp only [List.mem_map, List.mem_range]
      exact ⟨s.current_task + 1 + k, ⟨k, hk, rfl⟩, hkj⟩
    exact h j hjmem (decide_eq_true hready)
  · intro h x hx hpx
    simp only [List.mem_map, List.mem_range] at hx
    obtain ⟨id, ⟨k, hk, rfl⟩, rfl⟩ := hx
    have hlt : (s.current_task + 1 + k) % s.tasks.length < s.tasks.length :=
      Nat.mod_lt _ hN
    exact h _ hlt (of_decide_eq_true hpx)

/-! ## C9: Exited is terminal -/

/-- Invariant after task `i` has exited and the scheduler has moved on:
`i` is a valid index, its status is `Exited`, and it is not current. -/
def ExitedInv (i : Nat) (s : TaskManagerInner) : Prop :=
  i < s.tasks.length ∧
  (s.tasks.getD i dTCB).task_status = TaskStatus.Exited ∧
  s.current_task ≠ i

/-- The scheduler operations reachable from the module's public interface:
`suspend_current_and_run_next` (yield) and `exit_current_and_run_next`
(exit), each at some clock reading. -/
inductive SchedOp where
  | yieldOp : Nat → SchedOp
  | exitOp : Nat → SchedOp

def runOp : SchedOp → TaskManagerInner → Option TaskManagerInner
  | SchedOp.yieldOp now, s => suspend_current_and_run_next now s
  | SchedOp.exitOp now, s => exit_current_and_run_next now s

/-- Run a sequence of scheduler operations; `none` once the kernel has halted
("All applications completed!"). -/
def runOps : List SchedOp → TaskManagerInner → Option TaskManagerInner
  | [], s => some s
  | op :: ops, s =>
    match runOp op s with
    | some s' => runOps ops s'
    | none => none

theorem run_next_task_keeps_exited (now : Nat) (s : TaskManagerInner)
    (i : Nat) (hi : i < s.tasks.length)
    (hex : (s.tasks.getD i dTCB).task_status = TaskStatus.Exited) :
    ∀ s', run_next_task now s = some s' → ExitedInv i s' := by
  intro s' h
  unfold run_next_task at h
  cases hf : find_next_task s with
  | none => rw [hf] at h; exact Option.noConfusion h
  | some next =>
    rw [hf] at h
    obtain ⟨hlt, hready⟩ := find_next_task_some s next hf
    have hne : next ≠ i := by
      intro e
      rw [e, hex] at hready
      exact TaskStatus.noConfusion hready
    cases h
    refine ⟨?_, ?_, ?_⟩
    · simpa [modifyAt_length] using hi
    · rw [getD_modifyAt_ne _ _ _ _ _ (fun e => hne e.symm)]
      exact hex
    · exact fun e => hne e


theorem runOp_preserves_exited (op : SchedOp) (s : TaskManagerInner)
    (i : Nat) (h : ExitedInv i s) :
    ∀ s', runOp op s = some s' → ExitedInv i s' := by
  obtain ⟨hi, hex, hcur⟩ := h
  have hmark : ∀ st : TaskStatus,
      let tasks' := modifyAt s.tasks s.current_task fun t =>
        { t with task_status := st }
      i < tasks'.length ∧ (tasks'.getD i dTCB).task_status =
        TaskStatus.Exited := by
    intro st
    refine ⟨by simpa [modifyAt_length] using hi, ?_⟩
    rw [getD_modifyAt_ne _ _ _ _ _ (fun e => hcur e.symm)]
    exact hex
  cases op with
  | yieldOp now =>
    intro s' hs'
    have h1 := hmark TaskStatus.Ready
    exact run_next_task_keeps_exited now (mark_current_suspended s) i
      h1.1 h1.2 s' hs'
  | exitOp now =>
    intro s' hs'
    have h1 := hmark TaskStatus.Exited
    exact run_next_task_keeps_exited now (mark_current_exited s) i
      h1.1 h1.2 s' hs'

theorem runOps_preserves_exited (ops : List SchedOp) (s : TaskManagerInner)
    (i : Nat) (h : ExitedInv i s) :
    ∀ s', runOps ops s = some s' → ExitedInv i s' := by
  induction ops generalizing s with
  | nil =>
    intro s' hs'
    cases hs'
    exact h
  | cons op ops ih =>
    intro s' hs'
    unfold runOps at hs'
    cases hop : runOp op s with
    | none => rw [hop] at hs'; exact Option.noConfusion hs'
    | some s₁ =>
      rw [hop] at hs'
      exact ih s₁ (runOp_preserves_exited op s i h s₁ hop) s' hs'

/-- C9: once the running task `i` exits (via `exit_current_and_run_next`),
then after any further sequence of yield/exit scheduler operations that has
not halted the kernel, task `i` still has status `Exited` and
`find_next_task` never selects it. -/
theorem exited_is_terminal (s : TaskManagerInner) (i now : Nat)
    (ops : List SchedOp) (hc : s.current_task = i)
    (hi : i < s.tasks.length) :
    ∀ s₁, exit_current_and_run_next now s = some s₁ →
    ∀ s₂, runOps ops s₁ = some s₂ →
      (s₂.tasks.getD i dTCB).task_status = TaskStatus.Exited ∧
      find_next_task s₂ ≠ some i := by
  intro s₁ hs₁ s₂ hs₂
  have hmark : (((mark_current_exited s).tasks).getD i dTCB).task_status =
      TaskStatus.Exited := by
    unfold mark_current_exited
    rw [hc, getD_modifyAt_eq _ _ _ _ (hc ▸ hi)]
  have h₁ : ExitedInv i s₁ :=
    run_next_task_keeps_exited now (mark_current_exited s) i
      (by simpa [mark_current_exited, modifyAt_length] using hi) hmark s₁ hs₁
  have h₂ : ExitedInv i s₂ := runOps_preserves_exited ops s₁ i h₁ s₂ hs₂
  refine ⟨h₂.2.1, find_next_task_ne_of_not_ready s₂ i ?_⟩
  rw [h₂.2.1]
  exact fun e => TaskStatus.noConfusion e

/-- Witness for C9: task 0 exits at time 5, one further yield at time 7;
task 0 remains `Exited` and is never selected. -/
theorem exited_is_terminal_witness :
    ((⟨[⟨TaskStatus.Exited, ⟨0, []⟩, []⟩,
        ⟨TaskStatus.Running, ⟨7, []⟩, []⟩], 1⟩ :
      TaskManagerInner).tasks.getD 0 dTCB).task_status =
        TaskStatus.Exited ∧
    find_next_task ⟨[⟨TaskStatus.Exited, ⟨0, []⟩, []⟩,
        ⟨TaskStatus.Running, ⟨7, []⟩, []⟩], 1⟩ ≠ some 0 :=
  exited_is_terminal
    ⟨[⟨TaskStatus.Running, ⟨0, []⟩, []⟩,
      ⟨TaskStatus.Ready, ⟨0, []⟩, []⟩], 0⟩ 0 5 [SchedOp.yieldOp 7] rfl
    (by decide)
    ⟨[⟨TaskStatus.Exited, ⟨0, []⟩, []⟩,
      ⟨TaskStatus.Running, ⟨5, []⟩, []⟩], 1⟩ (by decide)
    ⟨[⟨TaskStatus.Exited, ⟨0, []⟩, []⟩,
      ⟨TaskStatus.Running, ⟨7, []⟩, []⟩], 1⟩ (by decide)

/-! ## C7: round-robin scheduling and fairness -/

/-- All tasks except possibly the current one are `Ready` (the running system
between two switches, with every task still live). -/
def AllReadyExcept (s : TaskManagerInner) : Prop :=
  s.current_task < s.tasks.length ∧
  ∀ j, j < s.tasks.length → j ≠ s.current_task →
    (s.tasks.getD j dTCB).task_status = TaskStatus.Ready

theorem mark_suspended_all_ready (s : TaskManagerInner)
    (hinv : AllReadyExcept s) :
    ∀ j, j < s.tasks.length →
      (((mark_current_suspended s).tasks).getD j dTCB).task_status =
        TaskStatus.Ready := by
  intro j hj
  unfold mark_current_suspended
  by_cases hjc : j = s.current_task
  · subst hjc
    rw [getD_modifyAt_eq _ _ _ _ hj]
  · rw [getD_modifyAt_ne _ _ _ _ _ hjc]
    exact hinv.2 j hj hjc

/-- On an all-`Ready` table the scan selects the index right after the
current one. -/
theorem find_next_task_all_ready (s : TaskManagerInner)
    (hN : 0 < s.tasks.length)
    (hall : ∀ j, j < s.tasks.length →
      (s.tasks.getD j dTCB).task_status = TaskStatus.Ready) :
    find_next_task s = some ((s.current_task + 1) % s.tasks.length) := by
  unfold find_next_task
  cases hL : s.tasks.length with
  | zero => omega
  | succ m =>
    rw [hL] at hall
    rw [List.range_succ_eq_map, List.map_cons, List.map_cons,
      List.find?_cons_of_pos]
    apply decide_eq_true
    exact hall _ (Nat.mod_lt _ (Nat.succ_pos m))

theorem yield_step (now : Nat) (s : TaskManagerInner)
    (hN : 0 < s.tasks.length) (hinv : AllReadyExcept s) :
    ∃ s', suspend_current_and_run_next now s = some s' ∧
      s'.tasks.length = s.tasks.length ∧
      s'.current_task = (s.current_task + 1) % s.tasks.length ∧
      AllReadyExcept s' := by
  have hlen1 : (mark_current_suspended s).tasks.length = s.tasks.length := by
    unfold mark_current_suspended
    exact modifyAt_length _ _ _
  have hall := mark_suspended_all_ready s hinv
  have hfind : find_next_task (mark_current_suspended s) =
      some ((s.current_task + 1) % s.tasks.length) := by
    have h := find_next_task_all_ready (mark_current_suspended s)
      (by rw [hlen1]; exact hN) (by rw [hlen1]; exact hall)
    rw [hlen1] at h
    exact h
  have hnext : (s.current_task + 1) % s.tasks.length < s.tasks.length :=
    Nat.mod_lt _ hN
  have hrun : suspend_current_and_run_next now s =
      some { tasks := modifyAt (mark_current_suspended s).tasks ((s.current_task + 1) % s.tasks.length) (fun t => { t with task_status := TaskStatus.Running, stats := { t.stats with first_run_time := now } }), current_task := (s.current_task + 1) % s.tasks.length } := by
    unfold suspend_current_and_run_next run_next_task
    rw [hfind]
  refine ⟨_, hrun, ?_, rfl, ?_, ?_⟩
  · rw [modifyAt_length, hlen1]
  · rw [modifyAt_length, hlen1]
    exact hnext
  · intro j hj hne
    rw [modifyAt_length, hlen1] at hj
    rw [getD_modifyAt_ne _ _ _ _ _ hne]
    exact hall j hj

def yieldIter (now : Nat) : Nat → TaskManagerInner → Option TaskManagerInner
  | 0, s => some s
  | n + 1, s =>
    match suspend_current_and_run_next now s with
    | some s' => yieldIter now n s'
    | none => none

theorem yieldIter_spec (now : Nat) (n : Nat) :
    ∀ s : TaskManagerInner, 0 < s.tasks.length → AllReadyExcept s →
    ∃ s', yieldIter now n s = some s' ∧
      s'.tasks.length = s.tasks.length ∧
      s'.current_task = (s.current_task + n) % s.tasks.length ∧
      AllReadyExcept s' := by
  induction n with
  | zero =>
    intro s hN hinv
    exact ⟨s, rfl, rfl, (Nat.mod_eq_of_lt hinv.1).symm, hinv⟩
  | succ n ih =>
    intro s hN hinv
    obtain ⟨s₁, hs₁, hlen, hcur, hinv₁⟩ := yield_step now s hN hinv
    obtain ⟨s', hs', hlen', hcur', hinv'⟩ := ih s₁ (by omega) hinv₁
    refine ⟨s', ?_, by omega, ?_, hinv'⟩
    · unfold yieldIter
      rw [hs₁]
      exact hs'
    · rw [hcur', hcur, hlen, Nat.mod_add_mod]
      congr 1
      omega

theorem visit_list_nodup (c N : Nat) :
    ((List.range N).map (fun k => (c + k + 1) % N)).Nodup := by
  apply List.Nodup.map_on ?_ (List.nodup_range N)
  intro k1 h1 k2 h2 he
  rw [List.mem_range] at h1 h2
  have hm : (c + 1 + k1) % N = (c + 1 + k2) % N := by
    rw [show c + 1 + k1 = c + k1 + 1 by omega,
      show c + 1 + k2 = c + k2 + 1 by omega]
    exact he
  have hk : k1 % N = k2 % N := Nat.ModEq.add_left_cancel' (c + 1) hm
  rw [Nat.mod_eq_of_lt h1, Nat.mod_eq_of_lt h2] at hk
  exact hk

theorem visit_list_complete (c N j : Nat) (hN : 0 < N) (hj : j < N) :
    j ∈ (List.range N).map (fun k => (c + k + 1) % N) := by
  obtain ⟨k, hk, he⟩ := exists_k_mod (c + 1) N j hN hj
  rw [List.mem_map]
  refine ⟨k, List.mem_range.mpr hk, ?_⟩
  rw [show c + k + 1 = c + 1 + k by omega]
  exact he

/-- C7: `find_next_task` scans in cyclic order from `current+1` and covers
every index: it returns `none` exactly when no task is `Ready`; any returned
index is a `Ready` task AND the first `Ready` one in scan order (every
strictly earlier scan position from `current+1` holds a non-`Ready` task —
the claim's tie-break); and — with all `N` tasks `Ready` — the `k+1`-st of
`N` consecutive yields lands on index `(current+k+1) % N`, a sequence that
visits each of the `N` task indices exactly once (no duplicates, all
covered) before repeating. -/
theorem find_next_round_robin (s : TaskManagerInner) (now : Nat)
    (hN : 0 < s.tasks.length) :
    (find_next_task s = none ↔ ∀ j, j < s.tasks.length →
      (s.tasks.getD j dTCB).task_status ≠ TaskStatus.Ready) ∧
    (∀ j, find_next_task s = some j → j < s.tasks.length ∧
      (s.tasks.getD j dTCB).task_status = TaskStatus.Ready) ∧
    (∀ j, find_next_task s = some j →
      ∃ k, k < s.tasks.length ∧
        j = (s.current_task + 1 + k) % s.tasks.length ∧
        ∀ k', k' < k →
          (s.tasks.getD ((s.current_task + 1 + k') % s.tasks.length)
            dTCB).task_status ≠ TaskStatus.Ready) ∧
    (AllReadyExcept s → ∀ k, k < s.tasks.length →
      ∃ s', yieldIter now (k + 1) s = some s' ∧
        s'.current_task = (s.current_task + k + 1) % s.tasks.length) ∧
    ((List.range s.tasks.length).map
      (fun k => (s.current_task + k + 1) % s.tasks.length)).Nodup ∧
    (∀ j, j < s.tasks.length → j ∈ (List.range s.tasks.length).map
      (fun k => (s.current_task + k + 1) % s.tasks.length)) := by
  refine ⟨find_next_task_none_iff s hN, fun j h => find_next_task_some s j h,
    fun j h => find_next_task_first_match s j h,
    ?_, visit_list_nodup _ _, fun j hj => visit_list_complete _ _ j hN hj⟩
  intro hinv k _
  obtain ⟨s', hs', _, hcur, _⟩ := yieldIter_spec now (k + 1) s hN hinv
  exact ⟨s', hs', hcur⟩

/-- Witness for C7: three tasks, two consecutive yields from task 0 land on
task 2. -/
theorem find_next_round_robin_witness :
    ∃ s', yieldIter 0 2
        ⟨[⟨TaskStatus.Running, ⟨0, []⟩, []⟩,
          ⟨TaskStatus.Ready, ⟨0, []⟩, []⟩,
          ⟨TaskStatus.Ready, ⟨0, []⟩, []⟩], 0⟩ = some s' ∧
      s'.current_task = (0 + 1 + 1) % 3 :=
  (find_next_round_robin
    ⟨[⟨TaskStatus.Running, ⟨0, []⟩, []⟩,
      ⟨TaskStatus.Ready, ⟨0, []⟩, []⟩,
      ⟨TaskStatus.Ready, ⟨0, []⟩, []⟩], 0⟩ 0 (by decide)).2.2.2.1
    (by
      refine ⟨by decide, ?_⟩
      intro j hj hne
      have hj3 : j < 3 := by simpa using hj
      interval_cases j
      · exact absurd rfl hne
      · decide
      · decide) 1 (by decide)

end Os4
